import Mathlib

/-!
Verification of `src/tfoods_dump_recipe_json.py` (Timeglass Foods recipe and
registry sync) against its natural-language specification.

The Python script is shallowly embedded here:
- JSON documents become the mutual inductive `J` / `JList` / `JObj`
  (Python dicts are ordered association lists, as in CPython).
- Python `set` values become `Finset String`; Python dicts used as maps from
  item ids become functions `String → Option _` (dict equality in Python
  ignores insertion order, as does function equality here).
- Python strings are Lean `String`s; the character-level operations
  (`strip`, `startswith`, `in`) are modelled on the underlying `List Char`.
  `str.strip()` is modelled over the ASCII whitespace characters.
- Fallible code (`load_edible_items`, which raises `ValueError`) becomes
  `Except String _`; the orchestration `main` becomes a function producing
  the list of artifact-write events it performs together with its outcome.

The registry-reconciliation functions (`update_node_structural_fields`,
`sync_registry_nodes`, `new_node_template`) are unimplemented stubs (`pass`)
in the source; they are modelled from the specification, and are marked as
such in their doc comments.
-/

namespace TFoods

/-! ## JSON value model -/

mutual
/-- A JSON-like Python value: `None`, `bool`, number, `str`, `list`, `dict`. -/
inductive J : Type where
  | null : J
  | bool : Bool → J
  | num  : Int → J
  | str  : String → J
  | arr  : JList → J
  | obj  : JObj → J

/-- A JSON array (Python list of values). -/
inductive JList : Type where
  | nil : JList
  | cons : J → JList → JList

/-- A JSON object (Python dict): an insertion-ordered association list. -/
inductive JObj : Type where
  | nil : JObj
  | cons : String → J → JObj → JObj
end

deriving instance DecidableEq for J, JList, JObj

/-- `d.get(k)` on a Python dict: first binding of the key, if any. -/
def lookupJ (k : String) : JObj → Option J
  | .nil => none
  | .cons k2 v tl => if k2 = k then some v else lookupJ k tl

/-- Whether a value is a Python dict. -/
def isObjJ : J → Bool
  | .obj _ => true
  | _ => false

/-- Python truthiness of a JSON-like value (`bool(v)`). -/
def truthyJ : J → Bool
  | .null => false
  | .bool b => b
  | .num n => n != 0
  | .str s => !s.data.isEmpty
  | .arr .nil => false
  | .arr (.cons _ _) => true
  | .obj .nil => false
  | .obj (.cons _ _ _) => true

/-- Python `a or b` over two optional values (`d.get(k1) or d.get(k2)`). -/
def pyOr (a b : Option J) : Option J :=
  match a with
  | some v => if truthyJ v then some v else b
  | none => b

/-! ## String helpers used by the extractors -/

/-- `":" in s` on a Python string. -/
def strContainsColon (s : String) : Bool := s.data.contains ':'

/-- `s.startswith("#")` on a Python string. -/
def strStartsHash (s : String) : Bool := s.data.head? == some '#'

/-- `is_item_id` from `extract_outputs` / `extract_direct_ingredient_tokens`:
`isinstance(s, str) and ":" in s and not s.startswith("#")`, restricted to the
string case (the value-level wrappers below handle the non-string cases). -/
def isItemIdStr (s : String) : Bool := strContainsColon s && !strStartsHash s

/-- `is_tag_id` from `extract_direct_ingredient_tokens` (same body as
`is_item_id` in the source). -/
def isTagIdStr (s : String) : Bool := strContainsColon s && !strStartsHash s

/-- `tag_from_hash`: `s[1:]` when `s` starts with `#` and has `:` after it. -/
def tag_from_hash (s : String) : Option String :=
  if strStartsHash s && (s.data.drop 1).contains ':' then
    some (String.mk (s.data.drop 1))
  else none

/-- `token_from_item_id`. -/
def token_from_item_id (s : String) : String := "item:" ++ s

/-- `token_from_tag_id`. -/
def token_from_tag_id (s : String) : String := "tag:" ++ s

/-- `token_from_fluid_id`. -/
def token_from_fluid_id (s : String) : String := "fluid:" ++ s

/-! ## Output extractor (`extract_outputs`) -/

/-- `is_item_id(obj.get(k))` collected as a set:
the singleton when the field holds an item id, else empty. -/
def itemIdOf : Option J → Finset String
  | some (.str s) => if isItemIdStr s then {s} else ∅
  | _ => ∅

/-- `"item" in v or "id" in v or "name" in v` on a dict. -/
def hasResultKey (kvs : JObj) : Bool :=
  (lookupJ "item" kvs).isSome || (lookupJ "id" kvs).isSome ||
    (lookupJ "name" kvs).isSome

/-- `any(isinstance(x, dict) and ("item" in x or "id" in x or "name" in x) for x in v)`. -/
def anyResulty : JList → Bool
  | .nil => false
  | .cons (.obj kvs) tl => hasResultKey kvs || anyResulty tl
  | .cons _ tl => anyResulty tl

/-- The guard of the shallow-traversal loop in `from_result_obj`:
a value is descended into only when it is a dict carrying an
`item`/`id`/`name` field, or a list containing such a dict. -/
def looksResulty : J → Bool
  | .obj kvs => hasResultKey kvs
  | .arr xs => anyResulty xs
  | _ => false

mutual
/-- `from_result_obj` inside `extract_outputs`. -/
def from_result_obj : J → Finset String
  | .null => ∅
  | .bool _ => ∅
  | .num _ => ∅
  | .str s => if isItemIdStr s then {s} else ∅
  | .arr xs => fro_list xs
  | .obj kvs =>
      itemIdOf (lookupJ "item" kvs) ∪ itemIdOf (lookupJ "id" kvs) ∪
        itemIdOf (lookupJ "name" kvs) ∪ fro_values kvs

/-- The list branch of `from_result_obj`: union over the elements. -/
def fro_list : JList → Finset String
  | .nil => ∅
  | .cons x xs => from_result_obj x ∪ fro_list xs

/-- The `for v in obj.values()` loop of `from_result_obj`. -/
def fro_values : JObj → Finset String
  | .nil => ∅
  | .cons _ v tl => (if looksResulty v then from_result_obj v else ∅) ∪ fro_values tl
end

/-- `from_result_obj(recipe.get(k))` guarded by `k in recipe`. -/
def fro_field (k : String) (kvs : JObj) : Finset String :=
  match lookupJ k kvs with
  | some v => from_result_obj v
  | none => ∅

/-- `extract_outputs`: canonical output item ids of one recipe document. -/
def extract_outputs : J → Finset String
  | .obj kvs =>
      let primary := fro_field "result" kvs ∪ fro_field "results" kvs
      if primary = ∅ then fro_field "output" kvs ∪ fro_field "outputs" kvs
      else primary
  | _ => ∅

/-! ## Ingredient extractor (`extract_direct_ingredient_tokens`) -/

/-- The `id`/`name` alias branch: `is_item_id(obj.get(k))` as an item token. -/
def itemTokOf : Option J → List String
  | some (.str s) => if isItemIdStr s then [token_from_item_id s] else []
  | _ => []

/-- The `tag` branch: `is_tag_id(value)` as a tag token (also used for the
`fluidTag or tag` fallback in the fluid collector). -/
def tagTokOf : Option J → List String
  | some (.str s) => if isTagIdStr s then [token_from_tag_id s] else []
  | _ => []

/-- The `fluid` branch: `is_item_id(value)` as a fluid token. -/
def fluidTokOf : Option J → List String
  | some (.str s) => if isItemIdStr s then [token_from_fluid_id s] else []
  | _ => []

mutual
/-- `collect_from_ingredient_obj` (tokens appended in source order). -/
def collect_from_ingredient_obj : J → List String
  | .null => []
  | .bool _ => []
  | .num _ => []
  | .str s =>
      match tag_from_hash s with
      | some t => [token_from_tag_id t]
      | none => if isItemIdStr s then [token_from_item_id s] else []
  | .arr xs => cfi_list xs
  | .obj kvs =>
      itemTokOf (lookupJ "item" kvs) ++ tagTokOf (lookupJ "tag" kvs) ++
        itemTokOf (lookupJ "id" kvs) ++ itemTokOf (lookupJ "name" kvs) ++
        cfi_items kvs

/-- The list branch of `collect_from_ingredient_obj` (an OR-set). -/
def cfi_list : JList → List String
  | .nil => []
  | .cons x xs => collect_from_ingredient_obj x ++ cfi_list xs

/-- The `"items" in obj and isinstance(obj["items"], list)` branch of
`collect_from_ingredient_obj`, walking to the first `items` binding (the
lemma `cfi_items_eq_lookup` below restates it through `lookupJ`). -/
def cfi_items : JObj → List String
  | .nil => []
  | .cons k v tl =>
      if k = "items" then
        match v with
        | .arr xs => cfi_list xs
        | _ => []
      else cfi_items tl
end

/-- The `for el in vs` loop over a `fluids` list: bare fluid id strings only. -/
def fluidStrs : JList → List String
  | .nil => []
  | .cons (.str s) tl =>
      (if isItemIdStr s then [token_from_fluid_id s] else []) ++ fluidStrs tl
  | .cons _ tl => fluidStrs tl

mutual
/-- `collect_from_fluid_obj`. -/
def collect_from_fluid_obj : J → List String
  | .null => []
  | .bool _ => []
  | .num _ => []
  | .str s => if isItemIdStr s then [token_from_fluid_id s] else []
  | .arr xs => cff_list xs
  | .obj kvs =>
      fluidTokOf (lookupJ "fluid" kvs) ++
        (match lookupJ "fluids" kvs with
         | some (.arr xs) => fluidStrs xs
         | _ => []) ++
        tagTokOf (pyOr (lookupJ "fluidTag" kvs) (lookupJ "tag" kvs))

/-- The list branch of `collect_from_fluid_obj`. -/
def cff_list : JList → List String
  | .nil => []
  | .cons x xs => collect_from_fluid_obj x ++ cff_list xs
end

/-- The `for ing in key.values()` loop of the shaped-recipe branch. -/
def cfi_values : JObj → List String
  | .nil => []
  | .cons _ v tl => collect_from_ingredient_obj v ++ cfi_values tl

/-- The `for ing in recipe["inputs"]` loop: each element goes through both
collectors. -/
def cfiCff_list : JList → List String
  | .nil => []
  | .cons x xs =>
      collect_from_ingredient_obj x ++ collect_from_fluid_obj x ++ cfiCff_list xs

/-- `extract_direct_ingredient_tokens`: ordered raw direct-ingredient tokens
of one recipe document. -/
def extract_direct_ingredient_tokens : J → List String
  | .obj kvs =>
      (if (lookupJ "pattern" kvs).isSome then
         match lookupJ "key" kvs with
         | some (.obj keyObj) => cfi_values keyObj
         | _ => []
       else []) ++
      (match lookupJ "ingredients" kvs with
       | some (.arr xs) => cfi_list xs
       | _ => []) ++
      (match lookupJ "ingredient" kvs with
       | some v => collect_from_ingredient_obj v
       | none => []) ++
      (match lookupJ "input" kvs with
       | some v => collect_from_ingredient_obj v ++ collect_from_fluid_obj v
       | none => []) ++
      (match lookupJ "inputs" kvs with
       | some (.arr xs) => cfiCff_list xs
       | _ => []) ++
      (match lookupJ "fluid" kvs with
       | some v => collect_from_fluid_obj v
       | none => []) ++
      (match lookupJ "fluids" kvs with
       | some v => collect_from_fluid_obj v
       | none => []) ++
      (match lookupJ "fluidIngredient" kvs with
       | some v => collect_from_fluid_obj v
       | none => []) ++
      (match lookupJ "fluid_ingredient" kvs with
       | some v => collect_from_fluid_obj v
       | none => [])
  | _ => []

/-! ## Token canonicalizer (`canonicalize_token`) -/

/-- The characters removed by `str.strip()` (modelled over ASCII whitespace). -/
def pyWhitespace (c : Char) : Bool :=
  c == ' ' || c == '\t' || c == '\n' || c == '\r' ||
    c == Char.ofNat 11 || c == Char.ofNat 12

/-- Leading-whitespace removal. -/
def lstripCs (l : List Char) : List Char := l.dropWhile pyWhitespace

/-- Trailing-whitespace removal (`List.rdropWhile p l` is
`(l.reverse.dropWhile p).reverse`). -/
def rstripCs (l : List Char) : List Char := l.rdropWhile pyWhitespace

/-- `token.strip()` at the character level. -/
def stripCs (l : List Char) : List Char := rstripCs (lstripCs l)

/-- The body of `canonicalize_token` at the character level; `stripCs l` is
the local `t = token.strip()` of the source. -/
def canonCore (l : List Char) : List Char :=
  if "item:".data.isPrefixOf (stripCs l) || "tag:".data.isPrefixOf (stripCs l) ||
      "fluid:".data.isPrefixOf (stripCs l) then stripCs l
  else if (stripCs l).contains ':' && !((stripCs l).head? == some '#') then
    "item:".data ++ stripCs l
  else if ((stripCs l).head? == some '#') && ((stripCs l).drop 1).contains ':' then
    "tag:".data ++ (stripCs l).drop 1
  else stripCs l

/-- `canonicalize_token` on strings (the non-string pass-through branch of the
source does not arise for string inputs). -/
def canonicalize_token (token : String) : String := String.mk (canonCore token.data)

/-- `token.strip()` at the string level. -/
def pyStrip (s : String) : String := String.mk (stripCs s.data)

/-! ## Direct map construction -/

/-- The mutable accumulator `direct_map : Dict[str, Set[str]]`, as a map.
A key is present exactly when the function returns `some`. -/
def DMap : Type := String → Option (Finset String)

/-- The initial empty accumulator. -/
def emptyDM : DMap := fun _ => none

/-- `merge_direct_map`: skip if either side is empty, else add the token set
to every output's entry (creating missing entries). -/
def merge_direct_map (dm : DMap) (outputs : Finset String) (tokens : List String) :
    DMap :=
  if outputs = ∅ ∨ tokens = [] then dm
  else fun k =>
    if k ∈ outputs then some ((dm k).getD ∅ ∪ tokens.toFinset) else dm k

/-- One iteration of the loop in `build_direct_map`, for one streamed
`(source_id, rel_path, recipe)` triple. -/
def build_step (dm : DMap) (doc : String × String × J) : DMap :=
  let outputs := extract_outputs doc.2.2
  if outputs = ∅ then dm
  else
    let tokens := extract_direct_ingredient_tokens doc.2.2
    if tokens = [] then dm
    else merge_direct_map dm outputs (tokens.map canonicalize_token)

/-- `finalize_direct_map`: each token set becomes its sorted list. -/
def finalize_direct_map (dm : DMap) : String → Option (List String) :=
  fun k => (dm k).map (fun s => s.sort (· ≤ ·))

/-- `build_direct_map` over a streamed list of recipe documents. -/
def build_direct_map (recipes : List (String × String × J)) :
    String → Option (List String) :=
  finalize_direct_map (recipes.foldl build_step emptyDM)

/-! ## Edible masterlist ingestion (`load_edible_items`) -/

/-- The entry filter of `load_edible_items`: keep string entries containing `:`. -/
def collectEdibles : JList → Finset String
  | .nil => ∅
  | .cons (.str s) tl => (if strContainsColon s then {s} else ∅) ∪ collectEdibles tl
  | .cons _ tl => collectEdibles tl

/-- `load_edible_items` on the parsed document: raises (`Except.error`) when
the document is not an object or its `items` field is not a list. -/
def load_edible_items (doc : J) : Except String (Finset String) :=
  match doc with
  | .obj kvs =>
      match lookupJ "items" kvs with
      | some (.arr xs) => .ok (collectEdibles xs)
      | _ => .error "Edibles JSON missing items list"
  | _ => .error "Edibles JSON must be an object"

/-! ## Orchestration (`main`) -/

/-- The artifact-file writes `main` can perform. -/
inductive WriteEvent : Type where
  | directMapArtifact : WriteEvent
  | foodsArtifact : WriteEvent
  | statsArtifact : WriteEvent
deriving DecidableEq

/-- The externally observable inputs of one run of `main`. -/
structure Args : Type where
  ediblesExists : Bool
  ediblesContent : J
  inputsExist : Bool
  recipes : List (String × String × J)
  directMapOut : Bool
  dryRun : Bool

/-- The control flow of `main`: the ordered list of artifact writes performed,
together with the outcome (`Except.error` models the uncaught `ValueError`
from `load_edible_items`; `Except.ok n` models `return n`). -/
def mainModel (a : Args) : List WriteEvent × Except String Int :=
  if !a.ediblesExists then ([], .ok 2)
  else if !a.inputsExist then ([], .ok 2)
  else
    let writes1 : List WriteEvent :=
      if a.directMapOut && !a.dryRun then [.directMapArtifact] else []
    match load_edible_items a.ediblesContent with
    | .error e => (writes1, .error e)
    | .ok _ =>
        if a.dryRun then (writes1, .ok 0)
        else (writes1 ++ [.foodsArtifact, .statsArtifact], .ok 0)

/-! ## Registry reconciliation (modelled from the spec)

`node_filename`, `new_node_template`, `update_node_structural_fields` and
`sync_registry_nodes` are unimplemented stubs (`pass`) in the source file;
only their contracts exist (docstrings and spec sections 3 and 4.5). -/

/-- Python dict assignment `d[k] = v`: replace in place, or append. -/
def setField (k : String) (v : J) : JObj → JObj
  | .nil => .cons k v .nil
  | .cons k2 v2 tl => if k2 = k then .cons k2 v tl else .cons k2 v2 (setField k v tl)

/-- A sorted token list as a JSON array of strings. -/
def strsToJList : List String → JList
  | [] => .nil
  | s :: tl => .cons (.str s) (strsToJList tl)

/-- Modelled from the spec: `new_node_template` is an unimplemented stub in the
source; per its docstring and spec section 4.5, a new node has its identity
set and an `assigned_buffs` field that always exists and starts empty. -/
def new_node_template (item_id : String) : JObj :=
  .cons "id" (.str item_id) (.cons "assigned_buffs" (.arr .nil) .nil)

/-- Modelled from the spec: `update_node_structural_fields` is an unimplemented
stub in the source; per its docstring ("MUST NOT modify assigned_buffs") and
spec section 4.5, it overwrites the machine-owned structural fields
(direct-ingredient references, edibility flag, active status) from the current
`DirectMap`/`EdibleSet` and touches nothing else. -/
def update_node_structural_fields (node : JObj) (item_id : String)
    (direct_map : String → Option (List String)) (edible : Finset String) : JObj :=
  setField "status" (J.str "active")
    (setField "edible" (J.bool (decide (item_id ∈ edible)))
      (setField "direct_ingredients"
        (J.arr (strsToJList ((direct_map item_id).getD []))) node))

/-- Modelled from the spec: `sync_registry_nodes` is an unimplemented stub in
the source; per its docstring and spec section 4.5 it creates missing expected
nodes from the template, refreshes structural fields on present expected nodes,
flips absent-but-present nodes to disabled, and never deletes a node. The
registry snapshot is the map from item id to its on-disk node. -/
def sync_registry_nodes (snapshot : String → Option JObj) (expected : Finset String)
    (direct_map : String → Option (List String)) (edible : Finset String) :
    String → Option JObj :=
  fun item_id =>
    match snapshot item_id with
    | some node =>
        if item_id ∈ expected then
          some (update_node_structural_fields node item_id direct_map edible)
        else some (setField "status" (J.str "disabled") node)
    | none =>
        if item_id ∈ expected then
          some (update_node_structural_fields (new_node_template item_id) item_id
            direct_map edible)
        else none

/-! ## Auxiliary definitions for the statements -/

/-- Whether an `Except` result is a success (`load_edible_items` did not raise). -/
def exceptOk {α : Type} : Except String α → Bool
  | .ok _ => true
  | .error _ => false

/-- Membership of a string among the elements of a JSON array. -/
def jstrMem (s : String) : JList → Bool
  | .nil => false
  | .cons (.str s2) tl => s2 == s || jstrMem s tl
  | .cons _ tl => jstrMem s tl

/-- Invariant of the direct-map accumulator: every present entry is non-empty. -/
def dmInvariant (dm : DMap) : Prop := ∀ k s, dm k = some s → s.Nonempty

/-! ## Concrete example values (used by witnesses and counterexamples) -/

/-- The spec's worked example document:
`{"result": "modA:bread", "ingredients": ["modA:wheat", "#modB:dough"]}`. -/
def exDocBread : J :=
  .obj (.cons "result" (.str "modA:bread")
    (.cons "ingredients"
      (.arr (.cons (.str "modA:wheat") (.cons (.str "#modB:dough") .nil))) .nil))

/-- A second example document with a single-ingredient shape. -/
def exDocStew : J :=
  .obj (.cons "result" (.str "modA:stew")
    (.cons "ingredient" (.str "modA:bread") .nil))

/-- The bread document as a streamed `(source_id, rel_path, recipe)` triple. -/
def exTripleBread : String × String × J :=
  ("modA.jar", "data/modA/recipes/bread.json", exDocBread)

/-- The stew document as a streamed triple. -/
def exTripleStew : String × String × J :=
  ("modA.jar", "data/modA/recipes/stew.json", exDocStew)

/-- An existing registry node with a non-empty manual `assigned_buffs` field. -/
def nodeEx : JObj := .cons "assigned_buffs" (.arr (.cons (.str "regen") .nil)) .nil

/-- A registry snapshot holding `nodeEx` under `modA:bread`. -/
def snapEx : String → Option JObj :=
  fun i => if i = "modA:bread" then some nodeEx else none

/-- A run whose edibles file exists but is malformed (a JSON array), with
`--direct-map-out` given and no dry run. -/
def argsMalformed : Args := ⟨true, J.arr .nil, true, [], true, false⟩

/-- A run whose edibles file is missing. -/
def argsMissing : Args := ⟨false, J.null, true, [], true, false⟩

/-- An edibles document with one conforming and two non-conforming entries. -/
def edocEx : J :=
  J.obj (.cons "items"
    (.arr (.cons (.str "modA:bread") (.cons (.num 3) (.cons (.str "nocolon") .nil))))
    .nil)

/-- The `items` list of `edocEx`. -/
def edocExItems : JList :=
  .cons (.str "modA:bread") (.cons (.num 3) (.cons (.str "nocolon") .nil))

/-! ## Helper lemmas -/

theorem cfi_items_eq_lookup : (kvs : JObj) → (xs : JList) →
    lookupJ "items" kvs = some (J.arr xs) → cfi_items kvs = cfi_list xs
  | .nil, xs, h => by simp [lookupJ] at h
  | .cons k v tl, xs, h => by
      by_cases hk : k = "items"
      · subst hk
        rw [lookupJ, if_pos rfl] at h
        obtain rfl : v = J.arr xs := Option.some.inj h
        simp [cfi_items]
      · rw [lookupJ, if_neg hk] at h
        have ih := cfi_items_eq_lookup tl xs h
        cases v <;> simp [cfi_items, hk, ih]
termination_by kvs _ _ => sizeOf kvs

theorem cfi_items_eq_nil_of_lookup : (kvs : JObj) →
    (∀ xs, lookupJ "items" kvs ≠ some (J.arr xs)) → cfi_items kvs = []
  | .nil, _ => rfl
  | .cons k v tl, h => by
      by_cases hk : k = "items"
      · subst hk
        have hv : ∀ xs, v ≠ J.arr xs := by
          intro xs hx
          exact h xs (by rw [lookupJ, if_pos rfl, hx])
        cases v with
        | arr xs => exact absurd rfl (hv xs)
        | null => simp [cfi_items]
        | bool b => simp [cfi_items]
        | num n => simp [cfi_items]
        | str s => simp [cfi_items]
        | obj o => simp [cfi_items]
      · have ih := cfi_items_eq_nil_of_lookup tl fun xs hx => h xs (by
          rw [lookupJ, if_neg hk, hx])
        cases v <;> simp [cfi_items, hk, ih]
termination_by kvs _ => sizeOf kvs

theorem lookupJ_setField_ne (k k2 : String) (v : J) (h : k2 ≠ k) : (o : JObj) →
    lookupJ k2 (setField k v o) = lookupJ k2 o
  | .nil => by
      have h2 : ¬k = k2 := fun hh => h hh.symm
      simp [setField, lookupJ, h2]
  | .cons k3 v3 tl => by
      by_cases hk : k3 = k
      · subst hk
        have h2 : ¬k3 = k2 := fun hh => h hh.symm
        simp [setField, lookupJ, h2]
      · simp only [setField, if_neg hk, lookupJ, lookupJ_setField_ne k k2 v h tl]

theorem merge_direct_map_comm (dm : DMap) (o1 o2 : Finset String)
    (t1 t2 : List String) :
    merge_direct_map (merge_direct_map dm o1 t1) o2 t2
      = merge_direct_map (merge_direct_map dm o2 t2) o1 t1 := by
  by_cases h1 : o1 = ∅ ∨ t1 = []
  · by_cases h2 : o2 = ∅ ∨ t2 = [] <;> simp [merge_direct_map, h1, h2]
  · by_cases h2 : o2 = ∅ ∨ t2 = []
    · simp [merge_direct_map, h1, h2]
    · simp only [merge_direct_map, if_neg h1, if_neg h2]
      funext k
      by_cases k1 : k ∈ o1 <;> by_cases k2 : k ∈ o2 <;> simp [k1, k2]
      rw [Finset.union_comm t1.toFinset t2.toFinset]

theorem build_step_eq_merge (dm : DMap) (doc : String × String × J) :
    build_step dm doc
      = merge_direct_map dm (extract_outputs doc.2.2)
          ((extract_direct_ingredient_tokens doc.2.2).map canonicalize_token) := by
  unfold build_step
  by_cases h1 : extract_outputs doc.2.2 = ∅
  · simp [h1, merge_direct_map]
  · by_cases h2 : extract_direct_ingredient_tokens doc.2.2 = []
    · simp [h1, h2, merge_direct_map]
    · simp [h1, h2]

theorem build_step_comm (dm : DMap) (a b : String × String × J) :
    build_step (build_step dm a) b = build_step (build_step dm b) a := by
  simp only [build_step_eq_merge]
  exact merge_direct_map_comm dm _ _ _ _

theorem dmInvariant_empty : dmInvariant emptyDM := by
  intro k s h
  simp [emptyDM] at h

theorem dmInvariant_merge (dm : DMap) (o : Finset String) (t : List String)
    (hinv : dmInvariant dm) : dmInvariant (merge_direct_map dm o t) := by
  intro k s h
  unfold merge_direct_map at h
  by_cases hg : o = ∅ ∨ t = []
  · rw [if_pos hg] at h
    exact hinv k s h
  · rw [if_neg hg] at h
    by_cases hk : k ∈ o
    · simp only [if_pos hk, Option.some.injEq] at h
      have ht : t ≠ [] := fun hh => hg (Or.inr hh)
      obtain ⟨x, xs, rfl⟩ := List.exists_cons_of_ne_nil ht
      exact ⟨x, h ▸ Finset.mem_union_right _
        (List.mem_toFinset.mpr (List.mem_cons_self x xs))⟩
    · simp only [if_neg hk] at h
      exact hinv k s h

theorem dmInvariant_foldl (docs : List (String × String × J)) (dm : DMap)
    (hinv : dmInvariant dm) : dmInvariant (docs.foldl build_step dm) := by
  induction docs generalizing dm with
  | nil => exact hinv
  | cons d tl ih =>
      refine ih (build_step dm d) ?_
      rw [build_step_eq_merge]
      exact dmInvariant_merge dm _ _ hinv

theorem mem_collectEdibles (s : String) : (xs : JList) →
    (s ∈ collectEdibles xs ↔ (jstrMem s xs = true ∧ strContainsColon s = true))
  | .nil => by simp [collectEdibles, jstrMem]
  | .cons (.str s2) tl => by
      have ih := mem_collectEdibles s tl
      by_cases he : s2 = s
      · subst he
        by_cases hc : strContainsColon s2 = true <;>
          simp_all [collectEdibles, jstrMem]
      · have he2 : ¬s = s2 := fun hh => he hh.symm
        by_cases hc : strContainsColon s2 = true <;>
          simp_all [collectEdibles, jstrMem]
  | .cons .null tl => by
      simpa [collectEdibles, jstrMem] using mem_collectEdibles s tl
  | .cons (.bool b) tl => by
      simpa [collectEdibles, jstrMem] using mem_collectEdibles s tl
  | .cons (.num n) tl => by
      simpa [collectEdibles, jstrMem] using mem_collectEdibles s tl
  | .cons (.arr l) tl => by
      simpa [collectEdibles, jstrMem] using mem_collectEdibles s tl
  | .cons (.obj o) tl => by
      simpa [collectEdibles, jstrMem] using mem_collectEdibles s tl

theorem bool_not_true {b : Bool} (h : b = false) : ¬b = true := by
  rw [h]
  simp

theorem mk_data (s : String) : String.mk s.data = s := rfl

theorem data_append (x y : String) : (x ++ y).data = x.data ++ y.data := by
  cases x
  cases y
  rfl

theorem item_prefix_data : "item:".data = 'i' :: 't' :: 'e' :: 'm' :: ':' :: [] := rfl

theorem tag_prefix_data : "tag:".data = 't' :: 'a' :: 'g' :: ':' :: [] := rfl

theorem fluid_prefix_data :
    "fluid:".data = 'f' :: 'l' :: 'u' :: 'i' :: 'd' :: ':' :: [] := rfl

theorem isPrefixOf_cons_ne {c d : Char} (cs ds : List Char) (h : (c == d) = false) :
    ((c :: cs).isPrefixOf (d :: ds)) = false := by
  simp only [List.isPrefixOf, h, Bool.false_and]

theorem contains_colon_append_cons : (xs ys : List Char) →
    (xs ++ ':' :: ys).contains ':' = true
  | [], ys => by simp
  | c :: cs, ys => by simp [contains_colon_append_cons cs ys]

theorem pyWs_false_of_dropWhile_fix {c : Char} {cs : List Char}
    (h : List.dropWhile pyWhitespace (c :: cs) = c :: cs) :
    pyWhitespace c = false := by
  by_cases hp : pyWhitespace c = true
  · rw [List.dropWhile_cons_of_pos hp] at h
    have hlen := congrArg List.length h
    have hle := (List.dropWhile_sublist (l := cs) pyWhitespace).length_le
    simp at hlen
    omega
  · simpa using hp

theorem dropWhile_rev_fix_of_rstrip {t : List Char} (ht : rstripCs t = t) :
    List.dropWhile pyWhitespace t.reverse = t.reverse := by
  have h2 := congrArg List.reverse ht
  unfold rstripCs List.rdropWhile at h2
  simpa using h2

theorem rstrip_fix_tail {c : Char} {t : List Char} (h : rstripCs (c :: t) = c :: t)
    (hne : t ≠ []) : rstripCs t = t := by
  have h2 : List.dropWhile pyWhitespace (t.reverse ++ [c]) = t.reverse ++ [c] := by
    have h3 := dropWhile_rev_fix_of_rstrip h
    simpa [List.reverse_cons] using h3
  obtain ⟨r, rs, hr⟩ : ∃ r rs, t.reverse = r :: rs := by
    cases htr : t.reverse with
    | nil =>
        exact absurd (by simpa using congrArg List.reverse htr) hne
    | cons r rs => exact ⟨r, rs, rfl⟩
  rw [hr, List.cons_append] at h2
  have hpr := pyWs_false_of_dropWhile_fix h2
  unfold rstripCs List.rdropWhile
  rw [hr, List.dropWhile_cons_of_neg (by simp [hpr]), ← hr, List.reverse_reverse]

theorem stripCs_rstrip_fix (l : List Char) : rstripCs (stripCs l) = stripCs l := by
  unfold stripCs rstripCs
  exact List.rdropWhile_idempotent _ _

theorem stripCs_lstrip_fix (l : List Char) : lstripCs (stripCs l) = stripCs l := by
  unfold stripCs lstripCs rstripCs
  cases hm : List.rdropWhile pyWhitespace (List.dropWhile pyWhitespace l) with
  | nil => rfl
  | cons c cs =>
      have hpre := List.rdropWhile_prefix pyWhitespace (List.dropWhile pyWhitespace l)
      rw [hm] at hpre
      obtain ⟨t2, ht2⟩ := hpre
      have hh : (List.dropWhile pyWhitespace l).head? = some c := by
        rw [← ht2]
        rfl
      have hnp : pyWhitespace c = false := by
        have h4 := List.head?_dropWhile_not pyWhitespace l
        rw [hh] at h4
        exact h4
      exact List.dropWhile_cons_of_neg (by simp [hnp])

theorem stripCs_idem (l : List Char) : stripCs (stripCs l) = stripCs l := by
  have h1 : stripCs (stripCs l) = rstripCs (lstripCs (stripCs l)) := rfl
  rw [h1, stripCs_lstrip_fix, stripCs_rstrip_fix]

theorem stripCs_append_fix (c : Char) (x t : List Char) (hc : pyWhitespace c = false)
    (ht : rstripCs t = t) (htne : t ≠ []) :
    stripCs ((c :: x) ++ t) = (c :: x) ++ t := by
  unfold stripCs lstripCs
  rw [List.cons_append, List.dropWhile_cons_of_neg (by simp [hc])]
  unfold rstripCs List.rdropWhile
  rw [List.reverse_cons, List.reverse_append, List.append_assoc]
  obtain ⟨r, rs, hr⟩ : ∃ r rs, t.reverse = r :: rs := by
    cases htr : t.reverse with
    | nil =>
        exact absurd (by simpa using congrArg List.reverse htr) htne
    | cons r rs => exact ⟨r, rs, rfl⟩
  have hfix := dropWhile_rev_fix_of_rstrip ht
  have hpr := pyWs_false_of_dropWhile_fix (hr ▸ hfix)
  rw [hr, List.cons_append, List.dropWhile_cons_of_neg (by simp [hpr]),
    ← List.cons_append, ← hr]
  simp [List.reverse_append]

theorem canonCore_of_fix (t : List Char) (h : stripCs t = t) :
    canonCore t =
      (if "item:".data.isPrefixOf t || "tag:".data.isPrefixOf t ||
          "fluid:".data.isPrefixOf t then t
       else if t.contains ':' && !(t.head? == some '#') then "item:".data ++ t
       else if (t.head? == some '#') && (t.drop 1).contains ':' then
         "tag:".data ++ t.drop 1
       else t) := by
  unfold canonCore
  rw [h]

theorem canonCore_idem (l : List Char) : canonCore (canonCore l) = canonCore l := by
  have hfix : stripCs (stripCs l) = stripCs l := stripCs_idem l
  by_cases hA : ("item:".data.isPrefixOf (stripCs l) ||
      "tag:".data.isPrefixOf (stripCs l) ||
      "fluid:".data.isPrefixOf (stripCs l)) = true
  · have h1 : canonCore l = stripCs l := by
      unfold canonCore
      rw [if_pos hA]
    rw [h1, canonCore_of_fix _ hfix, if_pos hA]
  · by_cases hB : ((stripCs l).contains ':' && !((stripCs l).head? == some '#')) = true
    · have h1 : canonCore l = "item:".data ++ stripCs l := by
        unfold canonCore
        rw [if_neg hA, if_pos hB]
      have htne : stripCs l ≠ [] := by
        intro hnil
        rw [hnil] at hB
        simp at hB
      have hfix2 : stripCs ("item:".data ++ stripCs l) = "item:".data ++ stripCs l := by
        rw [item_prefix_data]
        exact stripCs_append_fix 'i' ['t', 'e', 'm', ':'] (stripCs l) (by decide)
          (stripCs_rstrip_fix l) htne
      rw [h1, canonCore_of_fix _ hfix2, if_pos (by simp)]
    · by_cases hC : (((stripCs l).head? == some '#') &&
          ((stripCs l).drop 1).contains ':') = true
      · obtain ⟨hHash, hCol⟩ := Bool.and_eq_true_iff.mp hC
        obtain ⟨t2, hsplit⟩ : ∃ t2, stripCs l = '#' :: t2 := by
          cases hs : stripCs l with
          | nil => rw [hs] at hHash; simp at hHash
          | cons c cs =>
              rw [hs] at hHash
              simp at hHash
              exact ⟨cs, by rw [hHash]⟩
        have h1 : canonCore l = "tag:".data ++ t2 := by
          unfold canonCore
          rw [if_neg hA, if_neg hB, if_pos hC, hsplit]
          simp
        have htne2 : t2 ≠ [] := by
          intro hnil
          rw [hsplit, hnil] at hCol
          simp at hCol
        have hrfix2 : rstripCs t2 = t2 := by
          have hr := stripCs_rstrip_fix l
          rw [hsplit] at hr
          exact rstrip_fix_tail hr htne2
        have hfix2 : stripCs ("tag:".data ++ t2) = "tag:".data ++ t2 := by
          rw [tag_prefix_data]
          exact stripCs_append_fix 't' ['a', 'g', ':'] t2 (by decide) hrfix2 htne2
        rw [h1, canonCore_of_fix _ hfix2, if_pos (by simp)]
      · have h1 : canonCore l = stripCs l := by
          unfold canonCore
          rw [if_neg hA, if_neg hB, if_neg hC]
        rw [h1, canonCore_of_fix _ hfix, if_neg hA, if_neg hB, if_neg hC]

/-! ## Claims -/

/-- Claim C1: for every registry node in which the manual field `assigned_buffs`
already exists, no reconciliation operation (`update_node_structural_fields`,
`sync_registry_nodes`) ever changes the value of `assigned_buffs`, whatever
DirectMap and EdibleSet are supplied. -/
theorem C1_assigned_buffs_never_overwritten
    (snapshot : String → Option JObj) (expected : Finset String)
    (direct_map : String → Option (List String)) (edible : Finset String)
    (item_id : String) (node : JObj) (v : J)
    (hsnap : snapshot item_id = some node)
    (hbuff : lookupJ "assigned_buffs" node = some v) :
    lookupJ "assigned_buffs"
        (update_node_structural_fields node item_id direct_map edible) = some v ∧
      ∃ node2, sync_registry_nodes snapshot expected direct_map edible item_id
          = some node2 ∧ lookupJ "assigned_buffs" node2 = some v := by
  have hupd : lookupJ "assigned_buffs"
      (update_node_structural_fields node item_id direct_map edible) = some v := by
    unfold update_node_structural_fields
    rw [lookupJ_setField_ne "status" "assigned_buffs" (J.str "active") (by decide),
        lookupJ_setField_ne "edible" "assigned_buffs" _ (by decide),
        lookupJ_setField_ne "direct_ingredients" "assigned_buffs" _ (by decide),
        hbuff]
  refine ⟨hupd, ?_⟩
  simp only [sync_registry_nodes, hsnap]
  by_cases he : item_id ∈ expected
  · simp only [if_pos he]
    exact ⟨_, rfl, hupd⟩
  · simp only [if_neg he]
    refine ⟨_, rfl, ?_⟩
    rw [lookupJ_setField_ne "status" "assigned_buffs" (J.str "disabled") (by decide),
        hbuff]

/-- Witness for C1: a node with `assigned_buffs = ["regen"]` keeps that value
through `update_node_structural_fields` and `sync_registry_nodes`. -/
theorem C1_witness :
    lookupJ "assigned_buffs"
        (update_node_structural_fields nodeEx "modA:bread"
          (build_direct_map [exTripleBread]) {"modA:bread"})
      = some (J.arr (.cons (.str "regen") .nil)) ∧
    ∃ node2, sync_registry_nodes snapEx {"modA:bread"}
        (build_direct_map [exTripleBread]) {"modA:bread"} "modA:bread"
        = some node2 ∧
      lookupJ "assigned_buffs" node2 = some (J.arr (.cons (.str "regen") .nil)) :=
  C1_assigned_buffs_never_overwritten snapEx {"modA:bread"}
    (build_direct_map [exTripleBread]) {"modA:bread"} "modA:bread" nodeEx
    (J.arr (.cons (.str "regen") .nil)) (by decide) (by decide)

/-- Claim C2: for any fixed multiset of recipe documents, the finalized
DirectMap produced by `build_direct_map` is identical for every ordering
(every permutation) of the document stream. -/
theorem C2_direct_map_order_independent (l1 l2 : List (String × String × J))
    (h : l1.Perm l2) : build_direct_map l1 = build_direct_map l2 := by
  unfold build_direct_map
  rw [h.foldl_eq' (fun x _ y _ z => build_step_comm z x y) emptyDM]

/-- Witness for C2: swapping two concrete documents leaves the map unchanged. -/
theorem C2_witness :
    ([exTripleBread, exTripleStew].Perm [exTripleStew, exTripleBread]) ∧
      build_direct_map [exTripleBread, exTripleStew]
        = build_direct_map [exTripleStew, exTripleBread] :=
  ⟨List.Perm.swap exTripleStew exTripleBread [],
   C2_direct_map_order_independent _ _ (List.Perm.swap exTripleStew exTripleBread [])⟩

/-- Claim C6: merging a pair with both sides non-empty adds the full
canonicalized token set to every output in the pair's output set. -/
theorem C6_merge_adds_all_tokens_to_every_output (dm : DMap)
    (outputs : Finset String) (rawTokens : List String)
    (ho : outputs ≠ ∅) (ht : rawTokens ≠ []) :
    ∀ o ∈ outputs, ∃ s,
      merge_direct_map dm outputs (rawTokens.map canonicalize_token) o = some s ∧
        ∀ t ∈ rawTokens, canonicalize_token t ∈ s := by
  intro o hmem
  have hguard : ¬(outputs = ∅ ∨ rawTokens.map canonicalize_token = []) := by
    simp [ho, ht]
  refine ⟨(dm o).getD ∅ ∪ (rawTokens.map canonicalize_token).toFinset, ?_, ?_⟩
  · simp only [merge_direct_map, if_neg hguard, if_pos hmem]
  · intro t htmem
    exact Finset.mem_union_right _
      (List.mem_toFinset.mpr (List.mem_map_of_mem canonicalize_token htmem))

/-- Witness for C6: outputs `{modA:bread, modA:toast}` with two raw tokens;
`modA:toast` receives both canonicalized tokens. -/
theorem C6_witness :
    ∃ s, merge_direct_map emptyDM {"modA:bread", "modA:toast"}
        ((["modA:wheat", "#modB:dough"]).map canonicalize_token) "modA:toast"
        = some s ∧
      ∀ t ∈ ["modA:wheat", "#modB:dough"], canonicalize_token t ∈ s :=
  C6_merge_adds_all_tokens_to_every_output emptyDM {"modA:bread", "modA:toast"}
    ["modA:wheat", "#modB:dough"] (by decide) (by decide) "modA:toast" (by decide)

/-- Claim C7: a document whose extracted output set is empty or whose extracted
token list is empty contributes nothing to the DirectMap, and no key of the
finalized map maps to an empty sequence. -/
theorem C7_empty_sides_contribute_nothing (dm : DMap) (doc : String × String × J)
    (docs : List (String × String × J)) (k : String) :
    (extract_outputs doc.2.2 = ∅ ∨ extract_direct_ingredient_tokens doc.2.2 = [] →
        build_step dm doc = dm) ∧
      build_direct_map docs k ≠ some [] := by
  constructor
  · intro h
    have hg : extract_outputs doc.2.2 = ∅ ∨
        (extract_direct_ingredient_tokens doc.2.2).map canonicalize_token = [] := by
      rcases h with h | h
      · exact Or.inl h
      · exact Or.inr (by rw [h, List.map_nil])
    rw [build_step_eq_merge]
    unfold merge_direct_map
    rw [if_pos hg]
  · intro hc
    unfold build_direct_map finalize_direct_map at hc
    cases hfold : docs.foldl build_step emptyDM k with
    | none => rw [hfold] at hc; simp at hc
    | some s =>
        rw [hfold] at hc
        have hsort : Finset.sort (· ≤ ·) s = [] := by simpa using hc
        have hs : s.Nonempty :=
          dmInvariant_foldl docs emptyDM dmInvariant_empty k s hfold
        have hlen := congrArg List.length hsort
        rw [Finset.length_sort] at hlen
        simp only [List.length_nil] at hlen
        exact Finset.nonempty_iff_ne_empty.mp hs (Finset.card_eq_zero.mp hlen)

/-- Witness for C7: a tokenless document leaves the accumulator unchanged, and
the built map's entry for `modA:bread` is not the empty sequence. -/
theorem C7_witness :
    build_step emptyDM ("j", "p", J.null) = emptyDM ∧
      build_direct_map [exTripleBread] "modA:bread" ≠ some [] :=
  ⟨(C7_empty_sides_contribute_nothing emptyDM ("j", "p", J.null) [exTripleBread]
      "modA:bread").1 (Or.inl (by decide)),
   (C7_empty_sides_contribute_nothing emptyDM ("j", "p", J.null) [exTripleBread]
      "modA:bread").2⟩

/-- Claim C8: the extractors are total on every JSON-like document value (they
are computable total functions of `J` by construction, so they never raise),
and an unrecognized shape yields the empty set / empty list: any non-dict
document, any dict without a recognized field, and a non-descriptor ingredient
value all contribute nothing. -/
theorem C8_extractors_total_and_best_effort (d : J) (kvs : JObj) (n : Int) :
    (isObjJ d = false →
        extract_outputs d = ∅ ∧ extract_direct_ingredient_tokens d = []) ∧
      (lookupJ "result" kvs = none → lookupJ "results" kvs = none →
        lookupJ "output" kvs = none → lookupJ "outputs" kvs = none →
        extract_outputs (J.obj kvs) = ∅) ∧
      (lookupJ "pattern" kvs = none → lookupJ "ingredients" kvs = none →
        lookupJ "ingredient" kvs = none → lookupJ "input" kvs = none →
        lookupJ "inputs" kvs = none → lookupJ "fluid" kvs = none →
        lookupJ "fluids" kvs = none → lookupJ "fluidIngredient" kvs = none →
        lookupJ "fluid_ingredient" kvs = none →
        extract_direct_ingredient_tokens (J.obj kvs) = []) ∧
      (collect_from_ingredient_obj (J.num n) = [] ∧
        collect_from_fluid_obj (J.num n) = []) := by
  refine ⟨?_, ?_, ?_, ?_, ?_⟩
  · intro hd
    cases d with
    | obj kvs2 => simp [isObjJ] at hd
    | null => exact ⟨rfl, rfl⟩
    | bool b => exact ⟨rfl, rfl⟩
    | num m => exact ⟨rfl, rfl⟩
    | str s => exact ⟨rfl, rfl⟩
    | arr xs => exact ⟨rfl, rfl⟩
  · intro h1 h2 h3 h4
    simp [extract_outputs, fro_field, h1, h2, h3, h4]
  · intro h1 h2 h3 h4 h5 h6 h7 h8 h9
    simp [extract_direct_ingredient_tokens, h1, h2, h3, h4, h5, h6, h7, h8, h9]
  · rfl
  · rfl

/-- Witness for C8: a number document, a dict with only a `type` field and a
numeric ingredient descriptor all contribute nothing. -/
theorem C8_witness :
    (extract_outputs (J.num 7) = ∅ ∧
        extract_direct_ingredient_tokens (J.num 7) = []) ∧
      extract_outputs (J.obj (JObj.cons "type" (J.str "smelting") JObj.nil)) = ∅ ∧
      extract_direct_ingredient_tokens
          (J.obj (JObj.cons "type" (J.str "smelting") JObj.nil)) = [] ∧
      (collect_from_ingredient_obj (J.num 7) = [] ∧
        collect_from_fluid_obj (J.num 7) = []) :=
  ⟨(C8_extractors_total_and_best_effort (J.num 7)
      (JObj.cons "type" (J.str "smelting") JObj.nil) 7).1 (by decide),
   (C8_extractors_total_and_best_effort (J.num 7)
      (JObj.cons "type" (J.str "smelting") JObj.nil) 7).2.1
     (by decide) (by decide) (by decide) (by decide),
   (C8_extractors_total_and_best_effort (J.num 7)
      (JObj.cons "type" (J.str "smelting") JObj.nil) 7).2.2.1
     (by decide) (by decide) (by decide) (by decide) (by decide) (by decide)
     (by decide) (by decide) (by decide),
   (C8_extractors_total_and_best_effort (J.num 7)
      (JObj.cons "type" (J.str "smelting") JObj.nil) 7).2.2.2⟩

/-- Claim C9: `load_edible_items` ignores every non-conforming entry of the
`items` sequence (any entry that is not a string containing a colon) without
failing, and fails exactly when the document is not an object or lacks an
`items` list. -/
theorem C9_load_edible_items_contract (doc : J) :
    (exceptOk (load_edible_items doc) = true ↔
        ∃ kvs xs, doc = J.obj kvs ∧ lookupJ "items" kvs = some (J.arr xs)) ∧
      ∀ kvs xs, doc = J.obj kvs → lookupJ "items" kvs = some (J.arr xs) →
        load_edible_items doc = Except.ok (collectEdibles xs) ∧
        ∀ s, s ∈ collectEdibles xs ↔
          (jstrMem s xs = true ∧ strContainsColon s = true) := by
  constructor
  · constructor
    · intro hok
      cases doc with
      | obj kvs =>
          cases hit : lookupJ "items" kvs with
          | none => simp [load_edible_items, hit, exceptOk] at hok
          | some v =>
              cases v with
              | arr xs => exact ⟨kvs, xs, rfl, hit⟩
              | null => simp [load_edible_items, hit, exceptOk] at hok
              | bool b => simp [load_edible_items, hit, exceptOk] at hok
              | num m => simp [load_edible_items, hit, exceptOk] at hok
              | str s => simp [load_edible_items, hit, exceptOk] at hok
              | obj o => simp [load_edible_items, hit, exceptOk] at hok
      | null => simp [load_edible_items, exceptOk] at hok
      | bool b => simp [load_edible_items, exceptOk] at hok
      | num m => simp [load_edible_items, exceptOk] at hok
      | str s => simp [load_edible_items, exceptOk] at hok
      | arr xs => simp [load_edible_items, exceptOk] at hok
    · rintro ⟨kvs, xs, rfl, hit⟩
      simp [load_edible_items, hit, exceptOk]
  · rintro kvs xs rfl hit
    exact ⟨by simp [load_edible_items, hit], fun s => mem_collectEdibles s xs⟩

/-- Witness for C9: a document whose `items` list holds one conforming entry,
a number and a colon-free string loads successfully with just the conforming
entry. -/
theorem C9_witness :
    load_edible_items edocEx = Except.ok (collectEdibles edocExItems) ∧
      ∀ s, s ∈ collectEdibles edocExItems ↔
        (jstrMem s edocExItems = true ∧ strContainsColon s = true) :=
  (C9_load_edible_items_contract edocEx).2
    (JObj.cons "items" (J.arr edocExItems) JObj.nil) edocExItems rfl (by decide)

/-- Claim C3 is refuted: with `--direct-map-out` given, a run whose edible
masterlist file exists but is malformed (here a JSON array) writes the
direct-map artifact first and only then aborts inside `load_edible_items`
(`main` writes that artifact at step 2, before step 3 loads the masterlist),
so an artifact write does precede the abort. -/
theorem C3_counterexample :
    (mainModel argsMalformed).1 = [WriteEvent.directMapArtifact] ∧
      exceptOk (mainModel argsMalformed).2 = false := by decide

/-- Amended C3: if the edible masterlist file is missing, the run aborts with
exit code 2 and no artifact write at all; if it exists but is malformed, the
run aborts before the foods/stats artifacts are written — only the optional
direct-map artifact (requested via `--direct-map-out` without `--dry-run`)
can precede the abort. -/
theorem C3_amended_abort_before_foods_and_stats (a : Args) :
    (a.ediblesExists = false → mainModel a = ([], Except.ok 2)) ∧
      (exceptOk (load_edible_items a.ediblesContent) = false →
        (mainModel a).2 ≠ Except.ok 0 ∧
        WriteEvent.foodsArtifact ∉ (mainModel a).1 ∧
        WriteEvent.statsArtifact ∉ (mainModel a).1 ∧
        ∀ e ∈ (mainModel a).1, e = WriteEvent.directMapArtifact) := by
  constructor
  · intro h
    simp [mainModel, h]
  · intro hload
    cases h1 : a.ediblesExists with
    | false => simp [mainModel, h1]
    | true =>
        cases h2 : a.inputsExist with
        | false => simp [mainModel, h1, h2]
        | true =>
            cases hl : load_edible_items a.ediblesContent with
            | ok s => rw [hl] at hload; simp [exceptOk] at hload
            | error e =>
                by_cases h3 : (a.directMapOut && !a.dryRun) = true <;>
                  simp [mainModel, h1, h2, hl, h3]

/-- Witness for the amended C3 at the missing-file run and the malformed run. -/
theorem C3_witness :
    mainModel argsMissing = ([], Except.ok 2) ∧
      ((mainModel argsMalformed).2 ≠ Except.ok 0 ∧
        WriteEvent.foodsArtifact ∉ (mainModel argsMalformed).1 ∧
        WriteEvent.statsArtifact ∉ (mainModel argsMalformed).1 ∧
        ∀ e ∈ (mainModel argsMalformed).1, e = WriteEvent.directMapArtifact) :=
  ⟨(C3_amended_abort_before_foods_and_stats argsMissing).1 rfl,
   (C3_amended_abort_before_foods_and_stats argsMalformed).2 (by decide)⟩

/-- Claim C4 is refuted: `canonicalize_token` strips surrounding whitespace
before matching (`t = token.strip()`), so the input `" x "` — which matches
none of the recognized shapes — is returned stripped (`"x"`), not unchanged. -/
theorem C4_counterexample :
    canonicalize_token " x " = "x" ∧ ("x" : String) ≠ " x " := by decide

/-- Amended C4: for every input string whose whitespace-stripped form matches
none of the recognized shapes, `canonicalize_token` returns the stripped input
— hence the input itself whenever it carries no surrounding whitespace — and
it never raises (it is embedded as a total computable function of strings). -/
theorem C4_amended_passthrough_returns_strip (s : String)
    (h1 : ("item:".data.isPrefixOf (stripCs s.data) ||
      "tag:".data.isPrefixOf (stripCs s.data) ||
      "fluid:".data.isPrefixOf (stripCs s.data)) = false)
    (h2 : ((stripCs s.data).contains ':' &&
      !((stripCs s.data).head? == some '#')) = false)
    (h3 : (((stripCs s.data).head? == some '#') &&
      ((stripCs s.data).drop 1).contains ':') = false) :
    canonicalize_token s = pyStrip s ∧ (pyStrip s = s → canonicalize_token s = s) := by
  have hcc : canonCore s.data = stripCs s.data := by
    unfold canonCore
    rw [if_neg (bool_not_true h1), if_neg (bool_not_true h2),
      if_neg (bool_not_true h3)]
  constructor
  · unfold canonicalize_token pyStrip
    rw [hcc]
  · intro hfixs
    unfold canonicalize_token
    rw [hcc]
    exact hfixs

/-- Witness for the amended C4 at `"hello"`. -/
theorem C4_witness :
    canonicalize_token "hello" = pyStrip "hello" ∧
      canonicalize_token "hello" = "hello" :=
  ⟨(C4_amended_passthrough_returns_strip "hello" (by decide) (by decide)
      (by decide)).1,
   (C4_amended_passthrough_returns_strip "hello" (by decide) (by decide)
      (by decide)).2 (by decide)⟩

/-- Claim C5 is refuted on both halves: a string prefixed with `item:` that
carries trailing whitespace is returned stripped, not unchanged; and for the
namespaced pair `a:b` with `a = "item"`, `b = "y"` the input `"item:y"` is
caught by the already-canonical rule and returned unchanged rather than mapped
to `"item:item:y"`. -/
theorem C5_counterexample :
    canonicalize_token "item:x " ≠ "item:x " ∧
      canonicalize_token "item:y" ≠ "item:item:y" := by decide

/-- Amended C5: `canonicalize_token` returns any whitespace-stripped string
prefixed with `item:`, `tag:` or `fluid:` unchanged; for every namespaced pair
`a:b`, if `a:b` is whitespace-stripped, not prefixed with one of the canonical
prefixes and not starting with `#`, then `a:b` maps to `item:a:b`; and if
`#a:b` is whitespace-stripped then `#a:b` maps to `tag:a:b`. -/
theorem C5_amended_canonical_shapes (s a b : String) :
    (stripCs s.data = s.data →
      ("item:".data.isPrefixOf s.data || "tag:".data.isPrefixOf s.data ||
        "fluid:".data.isPrefixOf s.data) = true →
      canonicalize_token s = s) ∧
    (stripCs (a ++ ":" ++ b).data = (a ++ ":" ++ b).data →
      ("item:".data.isPrefixOf (a ++ ":" ++ b).data ||
        "tag:".data.isPrefixOf (a ++ ":" ++ b).data ||
        "fluid:".data.isPrefixOf (a ++ ":" ++ b).data) = false →
      ((a ++ ":" ++ b).data.head? == some '#') = false →
      canonicalize_token (a ++ ":" ++ b) = "item:" ++ a ++ ":" ++ b) ∧
    (stripCs ("#" ++ a ++ ":" ++ b).data = ("#" ++ a ++ ":" ++ b).data →
      canonicalize_token ("#" ++ a ++ ":" ++ b) = "tag:" ++ a ++ ":" ++ b) := by
  refine ⟨?_, ?_, ?_⟩
  · intro hfix hpre
    unfold canonicalize_token canonCore
    rw [hfix, if_pos hpre]
  · intro hfix hpre hhash
    have hd : (a ++ ":" ++ b).data = a.data ++ ':' :: b.data := by
      simp [data_append]
    unfold canonicalize_token canonCore
    rw [hfix, if_neg (bool_not_true hpre)]
    have hcol : (a ++ ":" ++ b).data.contains ':' = true := by
      rw [hd]
      exact contains_colon_append_cons _ _
    rw [if_pos (by rw [hcol, hhash]; rfl)]
    rw [← mk_data ("item:" ++ a ++ ":" ++ b)]
    exact congrArg String.mk (by simp [data_append])
  · intro hfix
    have hd : ("#" ++ a ++ ":" ++ b).data = '#' :: (a.data ++ ':' :: b.data) := by
      simp [data_append]
    unfold canonicalize_token canonCore
    rw [hfix, hd]
    have hA1 : "item:".data.isPrefixOf ('#' :: (a.data ++ ':' :: b.data)) = false := by
      rw [item_prefix_data]
      exact isPrefixOf_cons_ne _ _ (by decide)
    have hA2 : "tag:".data.isPrefixOf ('#' :: (a.data ++ ':' :: b.data)) = false := by
      rw [tag_prefix_data]
      exact isPrefixOf_cons_ne _ _ (by decide)
    have hA3 : "fluid:".data.isPrefixOf ('#' :: (a.data ++ ':' :: b.data)) = false := by
      rw [fluid_prefix_data]
      exact isPrefixOf_cons_ne _ _ (by decide)
    rw [if_neg (bool_not_true (by rw [hA1, hA2, hA3]; rfl)), if_neg (by simp),
      if_pos (by simp [contains_colon_append_cons])]
    rw [← mk_data ("tag:" ++ a ++ ":" ++ b)]
    exact congrArg String.mk (by simp [data_append])

/-- Witness for the amended C5 at a canonical token, a bare pair and a hashed
pair. -/
theorem C5_witness :
    canonicalize_token "fluid:minecraft:water" = "fluid:minecraft:water" ∧
      canonicalize_token ("modA" ++ ":" ++ "wheat")
        = "item:" ++ "modA" ++ ":" ++ "wheat" ∧
      canonicalize_token ("#" ++ "modB" ++ ":" ++ "dough")
        = "tag:" ++ "modB" ++ ":" ++ "dough" :=
  ⟨(C5_amended_canonical_shapes "fluid:minecraft:water" "modA" "wheat").1
     (by decide) (by decide),
   (C5_amended_canonical_shapes "fluid:minecraft:water" "modA" "wheat").2.1
     (by decide) (by decide) (by decide),
   (C5_amended_canonical_shapes "fluid:minecraft:water" "modB" "dough").2.2
     (by decide)⟩

/-- Claim C10: `canonicalize_token` is idempotent on strings. -/
theorem C10_canonicalize_token_idempotent (s : String) :
    canonicalize_token (canonicalize_token s) = canonicalize_token s := by
  unfold canonicalize_token
  exact congrArg String.mk (canonCore_idem s.data)

end TFoods
